import Mathlib

/-!
Verification of the detection post-processing pipeline of the
putting-speed-trainer repository.

The JavaScript sources are shallowly embedded: JS numbers are modelled by `ℚ`
(exact rational arithmetic), JS `null`/absent values by `Option`, and the one
place where the source can divide zero by zero (the IoU union term) returns
`none`, standing for the JS `NaN`/`Infinity` that the source would produce.
Mutable module-level state (the scheduler's cached detection and frame
counter) is modelled by explicit state passing.

Namespaces mirror the source files:
  * `Script`          — `script.js`
  * `ObjectDetection` — `src/js/detection/objectDetection.js`
  * `Part002`         — the scheduler variant (`drawVideoFrame` /
                        `processDetections` with frame skipping and the
                        `lastProcessedDetections` cache)
-/

/-- Center-form bounding box, all coordinates normalized; corresponds to the
`{x, y, w, h}` fields the JS functions read. -/
structure Box where
  x : ℚ
  y : ℚ
  w : ℚ
  h : ℚ
  deriving DecidableEq, Repr

/-- Embedding of `calculateIoU` (`script.js` lines 223-250; the identical
function also appears in the scheduler variant).  Converts both center-form
boxes to corner form, computes the intersection rectangle, returns `0` when
the rectangles do not overlap, and otherwise divides the intersection area by
the union term `box1Area + box2Area - intersectionArea`.  The JS source has no
guard on that division: when the union term is `0` it evaluates `x / 0`,
producing `NaN` (for `0 / 0`) or `Infinity`; the embedding makes that case
explicit as `none`. -/
def calculateIoU (box1 box2 : Box) : Option ℚ :=
  let box1Left := box1.x - box1.w / 2
  let box1Right := box1.x + box1.w / 2
  let box1Top := box1.y - box1.h / 2
  let box1Bottom := box1.y + box1.h / 2
  let box2Left := box2.x - box2.w / 2
  let box2Right := box2.x + box2.w / 2
  let box2Top := box2.y - box2.h / 2
  let box2Bottom := box2.y + box2.h / 2
  let intersectionLeft := max box1Left box2Left
  let intersectionRight := min box1Right box2Right
  let intersectionTop := max box1Top box2Top
  let intersectionBottom := min box1Bottom box2Bottom
  if intersectionRight < intersectionLeft ∨ intersectionBottom < intersectionTop then
    some 0
  else
    let intersectionArea :=
      (intersectionRight - intersectionLeft) * (intersectionBottom - intersectionTop)
    let box1Area := box1.w * box1.h
    let box2Area := box2.w * box2.h
    let union := box1Area + box2Area - intersectionArea
    if union = 0 then none else some (intersectionArea / union)

namespace Script

/-- Detection record built by `processDetections` (`script.js` lines 163-169):
a normalized center-form box together with the raw model confidence.  The
five-element arrays `[x, y, w, h, confidence]` that `script.js` passes around
are modelled by the same record, field by position. -/
structure Detection where
  x : ℚ
  y : ℚ
  w : ℚ
  h : ℚ
  confidence : ℚ
  deriving DecidableEq, Repr

instance : Inhabited Detection := ⟨⟨0, 0, 0, 0, 0⟩⟩

/-- The box fields of a detection, as read by `calculateIoU`. -/
def Detection.toBox (d : Detection) : Box := ⟨d.x, d.y, d.w, d.h⟩

/-- Minimum confidence to consider a detection (`script.js` line 36). -/
def MIN_CONFIDENCE : ℚ := 1 / 1000

/-- Intersection-over-Union threshold for clustering (`script.js` line 37). -/
def IOU_THRESHOLD : ℚ := 1 / 5

/-- The comparison `calculateIoU(detection, cluster) > IOU_THRESHOLD` from
`script.js` line 202, generalized over the threshold.  A `none` IoU (the JS
`NaN` from the unguarded division) compares false, exactly as `NaN > t` does
in JS. -/
def iouExceeds (t : ℚ) (detection cluster : Detection) : Bool :=
  match calculateIoU detection.toBox cluster.toBox with
  | some v => decide (t < v)
  | none => false

/-- The merge step of `clusterDetections` (`script.js` lines 204-209): the
cluster box becomes the confidence-weighted average of the cluster and the
detection, and the cluster confidence becomes the max of the two. -/
def mergeInto (detection cluster : Detection) : Detection :=
  let totalWeight := cluster.confidence + detection.confidence
  { x := (cluster.x * cluster.confidence + detection.x * detection.confidence) / totalWeight
    y := (cluster.y * cluster.confidence + detection.y * detection.confidence) / totalWeight
    w := (cluster.w * cluster.confidence + detection.w * detection.confidence) / totalWeight
    h := (cluster.h * cluster.confidence + detection.h * detection.confidence) / totalWeight
    confidence := max cluster.confidence detection.confidence }

/-- The inner `for (const cluster of clusters)` loop of `clusterDetections`
(`script.js` lines 201-213): scan the clusters in order and merge the
detection into the first one whose IoU exceeds the threshold, leaving the
rest unchanged; `none` when no cluster matches (the JS `added` flag stays
false). -/
def addDetection (t : ℚ) (detection : Detection) : List Detection → Option (List Detection)
  | [] => none
  | c :: cs =>
    if iouExceeds t detection c then
      some (mergeInto detection c :: cs)
    else
      (addDetection t detection cs).map (c :: ·)

/-- One iteration of the outer loop of `clusterDetections`: merge into the
first matching cluster, or push a copy of the detection as a new cluster
(`script.js` lines 215-217). -/
def clusterStep (t : ℚ) (clusters : List Detection) (detection : Detection) : List Detection :=
  (addDetection t detection clusters).getD (clusters ++ [detection])

/-- Embedding of `clusterDetections` (`script.js` lines 195-221), generalized
over the IoU threshold (the source reads the module constant
`IOU_THRESHOLD`). -/
def clusterDetections (t : ℚ) (detections : List Detection) : List Detection :=
  detections.foldl (clusterStep t) []

/-- The detection-building loop of `processDetections` (`script.js` lines
159-171): keep the indices whose confidence strictly exceeds the minimum
confidence and divide the spatial values by the model input size 640.
Out-of-range reads return the JS `undefined`; the embedding uses `getD _ 0`,
which agrees with the source on every well-formed (rectangular) prediction
array. -/
def extractDetections (minConfidence : ℚ) (predictions : List (List ℚ)) : List Detection :=
  let xs := predictions.getD 0 []
  let ys := predictions.getD 1 []
  let ws := predictions.getD 2 []
  let hs := predictions.getD 3 []
  let confs := predictions.getD 4 []
  (List.range xs.length).filterMap fun i =>
    let confidence := confs.getD i 0
    if minConfidence < confidence then
      some { x := xs.getD i 0 / 640, y := ys.getD i 0 / 640,
             w := ws.getD i 0 / 640, h := hs.getD i 0 / 640,
             confidence := confidence }
    else none

/-- The confidence test of the detection loop (`script.js` line 162:
`if (confidence > MIN_CONFIDENCE)`) as a standalone filter over already-built
detections, the way the spec's Confidence Filter component consumes them.
Order-preserving; strict inequality. -/
def confidenceFilter (minConfidence : ℚ) : List Detection → List Detection
  | [] => []
  | d :: ds =>
    if minConfidence < d.confidence then d :: confidenceFilter minConfidence ds
    else confidenceFilter minConfidence ds

/-- The best-cluster scan of `processDetections` (`script.js` lines 179-184):
start from the first cluster and replace it whenever a later cluster has
strictly greater confidence.  `none` on the empty list (the JS code never
reaches this point with an empty cluster list). -/
def selectBest : List Detection → Option Detection
  | [] => none
  | c :: cs => some (cs.foldl (fun best d => if best.confidence < d.confidence then d else best) c)

/-- The loop of `selectBest` with its running best made explicit:
`pickBest c cs` is the value of `bestCluster` after scanning `cs` starting
from `c`. -/
def pickBest (best : Detection) (l : List Detection) : Detection :=
  l.foldl (fun best d => if best.confidence < d.confidence then d else best) best

/-- Embedding of `processDetections` (`script.js` lines 152-193).  The
argument is `none` when the prediction array is missing (`!predictions`);
a present array of length other than 5 is rejected; otherwise the detections
are extracted and filtered, an empty result returns the `null` sentinel, and
the best cluster is returned (as the JS five-element array, modelled by the
`Detection` record). -/
def processDetections (predictions : Option (List (List ℚ))) : Option Detection :=
  match predictions with
  | none => none
  | some preds =>
    if preds.length ≠ 5 then none
    else if extractDetections MIN_CONFIDENCE preds = [] then none
    else selectBest (clusterDetections IOU_THRESHOLD (extractDetections MIN_CONFIDENCE preds))

/-- Accumulator of `smoothDetections` (`script.js` lines 256-261). -/
structure SmoothAcc where
  totalWeight : ℚ
  smoothedX : ℚ
  smoothedY : ℚ
  smoothedW : ℚ
  smoothedH : ℚ
  maxConfidence : ℚ
  deriving DecidableEq, Repr

/-- Loop body of `smoothDetections` (`script.js` lines 263-273). -/
def smoothStep (acc : SmoothAcc) (d : Detection) : SmoothAcc :=
  { totalWeight := acc.totalWeight + d.confidence
    smoothedX := acc.smoothedX + d.x * d.confidence
    smoothedY := acc.smoothedY + d.y * d.confidence
    smoothedW := acc.smoothedW + d.w * d.confidence
    smoothedH := acc.smoothedH + d.h * d.confidence
    maxConfidence := max acc.maxConfidence d.confidence }

/-- Embedding of `smoothDetections` (`script.js` lines 252-282): `null` on an
empty history, otherwise the running sums divided by the total weight, with
the running max confidence (seeded at `0`, as in the source).  The source
divides by `totalWeight` unconditionally; the claims about this function all
assume a non-zero total weight, where `ℚ` division agrees with JS. -/
def smoothDetections (detections : List Detection) : Option Detection :=
  if detections = [] then none
  else
    let acc := detections.foldl smoothStep ⟨0, 0, 0, 0, 0, 0⟩
    some { x := acc.smoothedX / acc.totalWeight
           y := acc.smoothedY / acc.totalWeight
           w := acc.smoothedW / acc.totalWeight
           h := acc.smoothedH / acc.totalWeight
           confidence := acc.maxConfidence }

end Script

namespace Script

/-- Spec-side merge, transcribed from the claim: each coordinate becomes
`(clusterVal * clusterConf + detVal * detConf) / (clusterConf + detConf)` and
the confidence becomes the maximum of the two confidences. -/
def specMerge (cluster detection : Detection) : Detection :=
  { x := (cluster.x * cluster.confidence + detection.x * detection.confidence) /
      (cluster.confidence + detection.confidence)
    y := (cluster.y * cluster.confidence + detection.y * detection.confidence) /
      (cluster.confidence + detection.confidence)
    w := (cluster.w * cluster.confidence + detection.w * detection.confidence) /
      (cluster.confidence + detection.confidence)
    h := (cluster.h * cluster.confidence + detection.h * detection.confidence) /
      (cluster.confidence + detection.confidence)
    confidence := max cluster.confidence detection.confidence }

/-- Spec-side clustering step, written from the claim's words: find the first
existing cluster whose IoU with the detection strictly exceeds the threshold
and replace it in place by the weighted merge; when none matches, append the
detection as a new cluster at the end (creation order). -/
def clusterStepSpec (t : ℚ) (clusters : List Detection) (detection : Detection) :
    List Detection :=
  match clusters.findIdx? (fun c => iouExceeds t detection c) with
  | some i => clusters.set i (specMerge ((clusters.get? i).getD detection) detection)
  | none => clusters ++ [detection]

/-- Running maximum of confidences, seeded by an initial value; the shape in
which both the best-cluster scan and the smoother accumulate maxima. -/
def foldMaxConf (seed : ℚ) (l : List Detection) : ℚ :=
  l.foldl (fun m d => max m d.confidence) seed

/-- Sum of confidences over a detection list (the claim's `sum(conf)`). -/
def sumConf (l : List Detection) : ℚ :=
  (l.map (fun d => d.confidence)).sum

/-- Sum of a weighted field over a detection list (the claim's
`sum(val * conf)`), for the field selected by `f`. -/
def sumWeighted (f : Detection → ℚ) (l : List Detection) : ℚ :=
  (l.map (fun d => f d * d.confidence)).sum

end Script

namespace ObjectDetection

/-- Minimum confidence threshold of the `objectDetection.js` module
(line 5). -/
def MIN_CONFIDENCE : ℚ := 1 / 2

/-- The confidence test of `processDetections` in `objectDetection.js`
(line 163: `if (confidence >= MIN_CONFIDENCE)`), as a standalone filter over
detections, generalized over the threshold.  Unlike the `script.js` variant,
the comparison is non-strict: a detection whose confidence equals the
threshold is kept. -/
def confidenceFilter (minConfidence : ℚ) : List Script.Detection → List Script.Detection
  | [] => []
  | d :: ds =>
    if minConfidence ≤ d.confidence then d :: confidenceFilter minConfidence ds
    else confidenceFilter minConfidence ds

end ObjectDetection

namespace Part002

/-- Detection record of the scheduler variant (`part_002` lines 163-170):
the five numeric fields plus the class id, which the extraction loop always
sets to `0` (`ball_golf`). -/
structure Detection where
  x : ℚ
  y : ℚ
  w : ℚ
  h : ℚ
  confidence : ℚ
  cls : ℕ
  deriving DecidableEq, Repr

instance : Inhabited Detection := ⟨⟨0, 0, 0, 0, 0, 0⟩⟩

/-- The box fields of a detection, as read by the variant's `calculateIoU`
(textually identical to the `script.js` one; the shared embedding
`calculateIoU` is reused). -/
def Detection.toBox (d : Detection) : Box := ⟨d.x, d.y, d.w, d.h⟩

/-- Minimum confidence threshold of 70% (`part_002` line 36). -/
def MIN_CONFIDENCE : ℚ := 7 / 10

/-- IoU threshold for clustering (`part_002` line 37). -/
def IOU_THRESHOLD : ℚ := 1 / 5

/-- Process every 3rd frame (`part_002` line 38). -/
def PROCESS_EVERY_N_FRAMES : ℕ := 3

/-- Model input size (`part_002` line 39). -/
def MODEL_INPUT_SIZE : ℚ := 640

/-- The boolean IoU threshold test of the variant's `clusterDetections`
(`part_002` line 208), with the same JS `NaN`-compares-false behaviour as
`Script.iouExceeds`. -/
def iouExceeds (t : ℚ) (detection cluster : Detection) : Bool :=
  match calculateIoU detection.toBox cluster.toBox with
  | some v => decide (t < v)
  | none => false

/-- The merge step of the variant's `clusterDetections` (`part_002` lines
210-215); the class id of the cluster is left unchanged. -/
def mergeInto (detection cluster : Detection) : Detection :=
  let totalWeight := cluster.confidence + detection.confidence
  { x := (cluster.x * cluster.confidence + detection.x * detection.confidence) / totalWeight
    y := (cluster.y * cluster.confidence + detection.y * detection.confidence) / totalWeight
    w := (cluster.w * cluster.confidence + detection.w * detection.confidence) / totalWeight
    h := (cluster.h * cluster.confidence + detection.h * detection.confidence) / totalWeight
    confidence := max cluster.confidence detection.confidence
    cls := cluster.cls }

/-- Inner cluster scan of the variant (`part_002` lines 206-219): a cluster
matches only when it has the same class id and its IoU with the detection
exceeds the threshold. -/
def addDetection (t : ℚ) (detection : Detection) : List Detection → Option (List Detection)
  | [] => none
  | c :: cs =>
    if c.cls = detection.cls ∧ iouExceeds t detection c then
      some (mergeInto detection c :: cs)
    else
      (addDetection t detection cs).map (c :: ·)

/-- One outer-loop iteration of the variant's `clusterDetections`. -/
def clusterStep (t : ℚ) (clusters : List Detection) (detection : Detection) : List Detection :=
  (addDetection t detection clusters).getD (clusters ++ [detection])

/-- Embedding of the variant's `clusterDetections` (`part_002` lines
200-227). -/
def clusterDetections (t : ℚ) (detections : List Detection) : List Detection :=
  detections.foldl (clusterStep t) []

/-- The detection-building loop of the variant's `processDetections`
(`part_002` lines 159-172); strict threshold `confidence > MIN_CONFIDENCE`,
coordinates divided by the input size, class id fixed at `0`. -/
def extractDetections (predictions : List (List ℚ)) : List Detection :=
  let xs := predictions.getD 0 []
  let ys := predictions.getD 1 []
  let ws := predictions.getD 2 []
  let hs := predictions.getD 3 []
  let confs := predictions.getD 4 []
  (List.range xs.length).filterMap fun i =>
    let confidence := confs.getD i 0
    if MIN_CONFIDENCE < confidence then
      some { x := xs.getD i 0 / MODEL_INPUT_SIZE, y := ys.getD i 0 / MODEL_INPUT_SIZE,
             w := ws.getD i 0 / MODEL_INPUT_SIZE, h := hs.getD i 0 / MODEL_INPUT_SIZE,
             confidence := confidence, cls := 0 }
    else none

/-- Best-cluster scan of the variant (`part_002` lines 183-188). -/
def selectBest : List Detection → Option Detection
  | [] => none
  | c :: cs => some (cs.foldl (fun best d => if best.confidence < d.confidence then d else best) c)

/-- Result of one call to the variant's `processDetections` (`part_002` lines
153-198), separating the two `null` returns by their different side effects
on the module-level cache `lastProcessedDetections`:
`malformed` (lines 154-156) returns `null` and leaves the cache untouched,
`noDetections` (lines 174-177) returns `null` after setting the cache to
`null`, and `found` returns the best cluster (which the callers then store in
the cache). -/
inductive ProcOutcome where
  | malformed : ProcOutcome
  | noDetections : ProcOutcome
  | found : Detection → ProcOutcome
  deriving DecidableEq, Repr

/-- Embedding of the variant's `processDetections`. -/
def processDetections (predictions : List (List ℚ)) : ProcOutcome :=
  if predictions.length ≠ 5 then .malformed
  else
    let detections := extractDetections predictions
    if detections = [] then .noDetections
    else
      match selectBest (clusterDetections IOU_THRESHOLD detections) with
      | some best => .found best
      | none => .noDetections

/-- Embedding of `detectBall` (`part_002` lines 118-151) as a state-passing
function over the cache `lastProcessedDetections`.  The argument `pred` is
`none` when the model is not loaded or inference throws (both return `null`
without touching the cache); otherwise it carries the prediction array
`arrayPreds[0]` handed to `processDetections`.  Returns
`(returned detection, new cache)`: a found detection is also stored in the
cache (line 143), a well-formed frame with no surviving detection clears the
cache (line 175), and a malformed frame leaves it untouched. -/
def detectBall (cache : Option Detection) (pred : Option (List (List ℚ))) :
    Option Detection × Option Detection :=
  match pred with
  | none => (none, cache)
  | some p =>
    match processDetections p with
    | .malformed => (none, cache)
    | .noDetections => (none, none)
    | .found d => (some d, some d)

/-- Scheduler state: the module-level `frameCount` and
`lastProcessedDetections` of `part_002` (lines 41-42). -/
structure SchedState where
  frameCount : ℕ
  lastProcessed : Option Detection
  deriving DecidableEq, Repr

/-- One active tick of `drawVideoFrame` (`part_002` lines 427-444), i.e. one
loop iteration with `isRecording && isModelLoaded` true.  Returns the next
state, the `currentDetections` value handed to the renderer (`none` means
nothing is drawn), and whether the inference pipeline was invoked on this
tick.  On a sampled tick (`frameCount % PROCESS_EVERY_N_FRAMES === 0`) the
pipeline runs and a non-null result is written to the cache (line 434); on a
non-sampled tick the cached detection, when present, is reused for rendering
(lines 436-439).  `frameCount` is incremented either way (line 440). -/
def tick (pred : Option (List (List ℚ))) (s : SchedState) :
    SchedState × Option Detection × Bool :=
  if s.frameCount % PROCESS_EVERY_N_FRAMES = 0 then
    let r := detectBall s.lastProcessed pred
    let current := r.1
    let cacheAfter :=
      match current with
      | some d => some d
      | none => r.2
    (⟨s.frameCount + 1, cacheAfter⟩, current, true)
  else
    (⟨s.frameCount + 1, s.lastProcessed⟩, s.lastProcessed, false)

/-- Trace of consecutive active ticks: for each tick, whether inference was
invoked and what was handed to the renderer. -/
def tickTrace : List (Option (List (List ℚ))) → SchedState → List (Bool × Option Detection)
  | [], _ => []
  | p :: ps, s =>
    let r := tick p s
    (r.2.2, r.2.1) :: tickTrace ps r.1

end Part002

/-! ## Correspondence lemmas for the clusterer -/

namespace Script

/-- Unfolding helper: when the IoU of a detection/cluster pair is a known
rational, the boolean threshold test is the comparison on that rational. -/
theorem iouExceeds_of_eq {d c : Detection} {v : ℚ} (t : ℚ)
    (h : calculateIoU d.toBox c.toBox = some v) :
    iouExceeds t d c = decide (t < v) := by
  unfold iouExceeds
  rw [h]

theorem mergeInto_eq_specMerge (detection cluster : Detection) :
    mergeInto detection cluster = specMerge cluster detection := rfl

/-- The inner cluster scan finds no matching cluster exactly when no cluster
passes the IoU test. -/
theorem addDetection_eq_none_iff (t : ℚ) (d : Detection) (clusters : List Detection) :
    addDetection t d clusters = none ↔
      clusters.findIdx? (fun c => iouExceeds t d c) = none := by
  induction clusters with
  | nil => simp [addDetection]
  | cons c cs ih =>
    by_cases h : iouExceeds t d c
    · simp [addDetection, h, List.findIdx?_cons]
    · simp [addDetection, h, List.findIdx?_cons, ih]

/-- When the cluster scan finds a first matching cluster at index `i`, the
result replaces that cluster by the merged one and keeps everything else. -/
theorem addDetection_eq_some (t : ℚ) (d : Detection) (clusters : List Detection)
    (i : ℕ) (h : clusters.findIdx? (fun c => iouExceeds t d c) = some i) :
    addDetection t d clusters =
      some (clusters.set i (specMerge ((clusters.get? i).getD d) d)) := by
  induction clusters generalizing i with
  | nil => simp [List.findIdx?_nil] at h
  | cons c cs ih =>
    by_cases hc : iouExceeds t d c
    · rw [List.findIdx?_cons] at h
      simp [hc] at h
      subst h
      simp [addDetection, hc, mergeInto_eq_specMerge]
    · rw [List.findIdx?_cons] at h
      simp [hc] at h
      obtain ⟨j, hj, rfl⟩ := h
      simp [addDetection, hc, ih j hj]

/-- One outer-loop iteration of the source clusterer coincides with the
claim's find-first/merge-or-append step. -/
theorem clusterStep_eq_spec (t : ℚ) (clusters : List Detection) (d : Detection) :
    clusterStep t clusters d = clusterStepSpec t clusters d := by
  unfold clusterStep clusterStepSpec
  cases h : clusters.findIdx? (fun c => iouExceeds t d c) with
  | none =>
    rw [(addDetection_eq_none_iff t d clusters).mpr h]
    rfl
  | some i =>
    rw [addDetection_eq_some t d clusters i h]
    rfl

end Script

/-- C1: the clusterer processes detections in their given order; each
detection merges into the first existing cluster whose IoU with it strictly
exceeds the threshold, the merged cluster's box being the confidence-weighted
average `(clusterVal * clusterConf + detVal * detConf) / (clusterConf + detConf)`
and its confidence the max of the two, a detection with no matching cluster
starts a new cluster equal to the detection, and the output lists clusters in
creation order.  Stated as: the source clusterer equals the left fold of the
claim's find-first/merge-or-append step over the detections, for every
detection list and every IoU threshold; together with the spec's concrete
instance, where `{x:0.5, conf:0.6}` and `{x:0.52, conf:0.4}` (both with
`y:0.5, w:0.2, h:0.2`) merge into the single cluster with `x = 0.508`
(`= 127/250`) and confidence `0.6`. -/
theorem clusterDetections_matches_claim :
    (∀ (t : ℚ) (detections : List Script.Detection),
        Script.clusterDetections t detections =
          detections.foldl (Script.clusterStepSpec t) []) ∧
      Script.clusterDetections (1/5)
          [⟨1/2, 1/2, 1/5, 1/5, 3/5⟩, ⟨13/25, 1/2, 1/5, 1/5, 2/5⟩] =
        [⟨127/250, 1/2, 1/5, 1/5, 3/5⟩] := by
  constructor
  · intro t detections
    unfold Script.clusterDetections
    congr 1
    funext clusters d
    exact Script.clusterStep_eq_spec t clusters d
  · have hc : calculateIoU (Script.Detection.toBox ⟨13/25, 1/2, 1/5, 1/5, 2/5⟩)
        (Script.Detection.toBox ⟨1/2, 1/2, 1/5, 1/5, 3/5⟩) = some (9/11) := by
      norm_num [calculateIoU, Script.Detection.toBox]
    have h1 : Script.iouExceeds (1/5) ⟨13/25, 1/2, 1/5, 1/5, 2/5⟩
        ⟨1/2, 1/2, 1/5, 1/5, 3/5⟩ = true := by
      rw [Script.iouExceeds_of_eq (1/5) hc]
      show decide ((1:ℚ)/5 < 9/11) = true
      norm_num
    simp only [Script.clusterDetections, List.foldl, Script.clusterStep,
      Script.addDetection, h1, if_true, Option.getD, List.nil_append]
    simp only [Script.mergeInto, Script.Detection.mk.injEq]
    norm_num

/-! ## Correspondence lemmas for the best-cluster selector -/

namespace Script

theorem foldMaxConf_nil (a : ℚ) : foldMaxConf a [] = a := rfl

theorem foldMaxConf_cons (a : ℚ) (d : Detection) (l : List Detection) :
    foldMaxConf a (d :: l) = foldMaxConf (max a d.confidence) l := rfl

/-- Pulling an outer `max` out of the running maximum. -/
theorem foldMaxConf_max (l : List Detection) (a b : ℚ) :
    foldMaxConf (max a b) l = max a (foldMaxConf b l) := by
  induction l generalizing b with
  | nil => rfl
  | cons d t ih =>
    rw [foldMaxConf_cons, foldMaxConf_cons, max_assoc, ih]

/-- The seed never exceeds the running maximum. -/
theorem le_foldMaxConf (l : List Detection) (a : ℚ) : a ≤ foldMaxConf a l := by
  induction l generalizing a with
  | nil => exact le_refl a
  | cons d t ih =>
    rw [foldMaxConf_cons]
    exact le_trans (le_max_left _ _) (ih _)

/-- Every member's confidence is bounded by the running maximum. -/
theorem confidence_le_foldMaxConf (l : List Detection) (a : ℚ) (d : Detection)
    (hd : d ∈ l) : d.confidence ≤ foldMaxConf a l := by
  induction l generalizing a with
  | nil => cases hd
  | cons c t ih =>
    rw [foldMaxConf_cons]
    rcases List.mem_cons.mp hd with rfl | hmem
    · exact le_trans (le_max_right _ _) (le_foldMaxConf _ _)
    · exact ih (max a c.confidence) hmem

theorem pickBest_nil (b : Detection) : pickBest b [] = b := rfl

theorem pickBest_cons (b d : Detection) (t : List Detection) :
    pickBest b (d :: t) = pickBest (if b.confidence < d.confidence then d else b) t := rfl

/-- The strict-greater-than scan of `selectBest` returns exactly the first
list element whose confidence attains the running maximum: earliest-created
cluster wins ties. -/
theorem find?_max_eq_pickBest (l : List Detection) (b : Detection) :
    (b :: l).find? (fun d => decide (foldMaxConf b.confidence l ≤ d.confidence)) =
      some (pickBest b l) := by
  induction l generalizing b with
  | nil =>
    simp [List.find?_cons, foldMaxConf_nil, pickBest_nil]
  | cons d t ih =>
    by_cases h : b.confidence < d.confidence
    · have hmax : foldMaxConf b.confidence (d :: t) = foldMaxConf d.confidence t := by
        rw [foldMaxConf_cons, max_eq_right h.le]
      have hb : ¬ foldMaxConf d.confidence t ≤ b.confidence :=
        fun hle => absurd (le_trans (le_foldMaxConf t d.confidence) hle) (not_le.mpr h)
      rw [pickBest_cons, if_pos h, hmax]
      simp only [List.find?_cons, decide_eq_false hb]
      exact ih d
    · have hd : d.confidence ≤ b.confidence := not_lt.mp h
      have hmax : foldMaxConf b.confidence (d :: t) = foldMaxConf b.confidence t := by
        rw [foldMaxConf_cons, max_eq_left hd]
      rw [pickBest_cons, if_neg h, hmax]
      by_cases hb : foldMaxConf b.confidence t ≤ b.confidence
      · have hfind := ih b
        simp only [List.find?_cons, decide_eq_true hb] at hfind
        simp only [List.find?_cons, decide_eq_true hb]
        exact hfind
      · have hdt : ¬ foldMaxConf b.confidence t ≤ d.confidence :=
          fun hle => hb (le_trans hle hd)
        have hfind := ih b
        simp only [List.find?_cons, decide_eq_false hb] at hfind
        simp only [List.find?_cons, decide_eq_false hb, decide_eq_false hdt]
        exact hfind

end Script

/-- C6: on a non-empty cluster list the best-cluster selector returns the
first cluster whose confidence attains the maximum confidence of the list
(so its confidence bounds every cluster's confidence, and ties resolve to the
earliest-created cluster, by the strict greater-than comparison of the scan);
on the list with confidences `[0.7, 0.9, 0.3]` it returns the cluster with
confidence `0.9`. -/
theorem selectBest_matches_claim :
    (∀ (c : Script.Detection) (cs : List Script.Detection),
        Script.selectBest (c :: cs) =
          (c :: cs).find?
            (fun d => decide (Script.foldMaxConf c.confidence cs ≤ d.confidence))) ∧
      (∀ (c : Script.Detection) (cs : List Script.Detection) (d : Script.Detection),
          d ∈ c :: cs → d.confidence ≤ Script.foldMaxConf c.confidence cs) ∧
      Script.selectBest
          [⟨0, 0, 0, 0, 7/10⟩, ⟨0, 0, 0, 0, 9/10⟩, ⟨0, 0, 0, 0, 3/10⟩] =
        some ⟨0, 0, 0, 0, 9/10⟩ := by
  refine ⟨fun c cs => ?_, fun c cs d hd => ?_, ?_⟩
  · rw [Script.find?_max_eq_pickBest cs c]
    rfl
  · rcases List.mem_cons.mp hd with rfl | hmem
    · exact Script.le_foldMaxConf cs d.confidence
    · exact Script.confidence_le_foldMaxConf cs c.confidence d hmem
  · show some (Script.pickBest ⟨0, 0, 0, 0, 7/10⟩
        [⟨0, 0, 0, 0, 9/10⟩, ⟨0, 0, 0, 0, 3/10⟩]) = some ⟨0, 0, 0, 0, 9/10⟩
    rw [Script.pickBest_cons, Script.pickBest_cons]
    norm_num
    rw [Script.pickBest_nil]

/-! ## IoU geometry -/

/-- C7: for every non-degenerate box `a` (positive width and height),
`calculateIoU a a` is exactly `1`: the self-intersection equals the box, and
the union term collapses to the box area, which is non-zero. -/
theorem calculateIoU_reflexive (a : Box) (hw : 0 < a.w) (hh : 0 < a.h) :
    calculateIoU a a = some 1 := by
  unfold calculateIoU
  simp only [max_self, min_self]
  have h1 : ¬(a.x + a.w / 2 < a.x - a.w / 2 ∨ a.y + a.h / 2 < a.y - a.h / 2) := by
    push_neg
    constructor <;> linarith
  rw [if_neg h1]
  have h2 : a.w * a.h + a.w * a.h -
      (a.x + a.w / 2 - (a.x - a.w / 2)) * (a.y + a.h / 2 - (a.y - a.h / 2)) = a.w * a.h := by
    ring
  rw [h2]
  have h3 : a.w * a.h ≠ 0 := by positivity
  rw [if_neg h3]
  congr 1
  have h4 : (a.x + a.w / 2 - (a.x - a.w / 2)) * (a.y + a.h / 2 - (a.y - a.h / 2)) = a.w * a.h := by
    ring
  rw [h4, div_self h3]

/-- Witness for C7 at the concrete non-degenerate box
`{x: 0.5, y: 0.5, w: 0.2, h: 0.2}`. -/
theorem calculateIoU_reflexive_witness :
    (0:ℚ) < 1/5 ∧ calculateIoU ⟨1/2, 1/2, 1/5, 1/5⟩ ⟨1/2, 1/2, 1/5, 1/5⟩ = some 1 :=
  ⟨by norm_num, calculateIoU_reflexive ⟨1/2, 1/2, 1/5, 1/5⟩ (by norm_num) (by norm_num)⟩

/-- C3: evaluation at the failing input.  For the zero-area box
`{x: 0, y: 0, w: 0, h: 0}` paired with itself, the non-overlap early return
is not taken (the degenerate rectangles touch), the union term
`box1Area + box2Area - intersectionArea` is `0`, and the source divides by
it with no guard: the JS result is `0 / 0 = NaN` (modelled by `none`), not
the `0` the claim requires.  The claim is right about the intent (the spec
demands the guard) and the code omits it. -/
theorem calculateIoU_zero_area_unguarded :
    calculateIoU ⟨0, 0, 0, 0⟩ ⟨0, 0, 0, 0⟩ = none := by
  norm_num [calculateIoU]

/-! ## Confidence filter -/

namespace Script

/-- The strict filter loop is `List.filter` with the strict comparison. -/
theorem confidenceFilter_eq_filter (minConfidence : ℚ) (dets : List Detection) :
    confidenceFilter minConfidence dets =
      dets.filter (fun d => decide (minConfidence < d.confidence)) := by
  induction dets with
  | nil => rfl
  | cons d ds ih =>
    by_cases h : minConfidence < d.confidence
    · simp [confidenceFilter, List.filter_cons, h, ih]
    · simp [confidenceFilter, List.filter_cons, h, ih]

end Script

/-- C2 counterexample: the claim quantifies over "the confidence filter" and
cites both `script.js` and `objectDetection.js`; the `objectDetection.js`
variant compares with `>=` (line 163), so on the claim's own example input
`[{conf: 0.3}, {conf: 0.5}, {conf: 0.51}]` with `minConfidence = 0.5` it
keeps the boundary detection with confidence exactly `0.5` and returns two
detections, not exactly `[{conf: 0.51}]`. -/
theorem objectDetection_filter_keeps_boundary :
    ObjectDetection.confidenceFilter (1/2)
        [⟨0, 0, 0, 0, 3/10⟩, ⟨0, 0, 0, 0, 1/2⟩, ⟨0, 0, 0, 0, 51/100⟩] =
      [⟨0, 0, 0, 0, 1/2⟩, ⟨0, 0, 0, 0, 51/100⟩] ∧
      ([⟨0, 0, 0, 0, 1/2⟩, ⟨0, 0, 0, 0, 51/100⟩] : List Script.Detection) ≠
        [⟨0, 0, 0, 0, 51/100⟩] := by
  constructor
  · simp only [ObjectDetection.confidenceFilter]
    norm_num
  · intro hEq
    have := congrArg List.length hEq
    simp at this

/-- C2 (amended): the `script.js` / `part_002` confidence filter — the
`confidence > MIN_CONFIDENCE` test — returns the order-preserving subsequence
of detections whose confidence is strictly greater than `minConfidence`
(detections with confidence exactly equal to the threshold are excluded), and
on `[{conf: 0.3}, {conf: 0.5}, {conf: 0.51}]` with `minConfidence = 0.5` it
yields exactly `[{conf: 0.51}]`; the `objectDetection.js` variant instead
uses `>=` and keeps the boundary detection. -/
theorem confidenceFilter_strict_matches_claim :
    (∀ (minConfidence : ℚ) (dets : List Script.Detection),
        Script.confidenceFilter minConfidence dets =
          dets.filter (fun d => decide (minConfidence < d.confidence))) ∧
      Script.confidenceFilter (1/2)
          [⟨0, 0, 0, 0, 3/10⟩, ⟨0, 0, 0, 0, 1/2⟩, ⟨0, 0, 0, 0, 51/100⟩] =
        [⟨0, 0, 0, 0, 51/100⟩] := by
  refine ⟨Script.confidenceFilter_eq_filter, ?_⟩
  simp only [Script.confidenceFilter]
  norm_num

/-! ## Temporal smoother -/

namespace Script

/-- Closed form of the smoothing fold: running sums of confidences and
weighted fields, and the running maximum of confidences. -/
theorem foldl_smoothStep_spec (l : List Detection) (acc : SmoothAcc) :
    l.foldl smoothStep acc =
      ⟨acc.totalWeight + sumConf l,
       acc.smoothedX + sumWeighted (fun d => d.x) l,
       acc.smoothedY + sumWeighted (fun d => d.y) l,
       acc.smoothedW + sumWeighted (fun d => d.w) l,
       acc.smoothedH + sumWeighted (fun d => d.h) l,
       foldMaxConf acc.maxConfidence l⟩ := by
  induction l generalizing acc with
  | nil =>
    simp [sumConf, sumWeighted, foldMaxConf_nil]
  | cons d t ih =>
    rw [List.foldl_cons, ih]
    simp only [smoothStep, sumConf, sumWeighted, List.map_cons, List.sum_cons,
      foldMaxConf_cons, SmoothAcc.mk.injEq]
    exact ⟨by ring, by ring, by ring, by ring, by ring, trivial⟩

end Script

/-- C8 counterexample: the smoother's running maximum is seeded at `0`
(`script.js` line 261, `let maxConfidence = 0`), so on the one-entry history
`[{x:0, y:0, w:0, h:0, conf: -1}]` — whose confidence sum is `-1 ≠ 0`, as the
claim requires — the returned confidence is `0`, while the maximum confidence
across the window is `-1 ≠ 0`. -/
theorem smoothDetections_seed_counterexample :
    Script.sumConf [⟨0, 0, 0, 0, -1⟩] = -1 ∧ (-1 : ℚ) ≠ 0 ∧
      Script.smoothDetections [⟨0, 0, 0, 0, -1⟩] = some ⟨0, 0, 0, 0, 0⟩ ∧
      Script.foldMaxConf (Script.Detection.confidence ⟨0, 0, 0, 0, -1⟩) [] = -1 ∧
      (0 : ℚ) ≠ -1 := by
  refine ⟨?_, by norm_num, ?_, rfl, by norm_num⟩
  · simp [Script.sumConf]
  · simp only [Script.smoothDetections, List.foldl, Script.smoothStep]
    norm_num

/-- C8 (amended): for every non-empty detection history whose confidences
have a non-zero sum, the smoother returns the detection whose `x`, `y`, `w`,
`h` are each `sum(val * conf) / sum(conf)` over the history, and whose
confidence is the maximum of `0` and the maximum confidence across the window
(the source seeds its running maximum at `0`; whenever some entry has
non-negative confidence this equals the window maximum, as the claim
states). -/
theorem smoothDetections_matches_claim (d : Script.Detection) (t : List Script.Detection)
    (h : Script.sumConf (d :: t) ≠ 0) :
    Script.smoothDetections (d :: t) =
      some ⟨Script.sumWeighted (fun e => e.x) (d :: t) / Script.sumConf (d :: t),
            Script.sumWeighted (fun e => e.y) (d :: t) / Script.sumConf (d :: t),
            Script.sumWeighted (fun e => e.w) (d :: t) / Script.sumConf (d :: t),
            Script.sumWeighted (fun e => e.h) (d :: t) / Script.sumConf (d :: t),
            max 0 (Script.foldMaxConf d.confidence t)⟩ := by
  unfold Script.smoothDetections
  rw [if_neg (by simp)]
  rw [Script.foldl_smoothStep_spec]
  simp only [zero_add]
  congr 1
  rw [Script.foldMaxConf_cons]
  rw [show max (0:ℚ) d.confidence = max 0 d.confidence from rfl]
  rw [Script.foldMaxConf_max]

/-- Witness for C8 (amended) at the singleton history
`[{x:1, y:1, w:1, h:1, conf:1}]`, whose confidence sum is `1 ≠ 0`. -/
theorem smoothDetections_matches_claim_witness :
    Script.sumConf [⟨1, 1, 1, 1, 1⟩] ≠ 0 ∧
      Script.smoothDetections [⟨1, 1, 1, 1, 1⟩] =
        some ⟨Script.sumWeighted (fun e => e.x) [⟨1, 1, 1, 1, 1⟩] / Script.sumConf [⟨1, 1, 1, 1, 1⟩],
              Script.sumWeighted (fun e => e.y) [⟨1, 1, 1, 1, 1⟩] / Script.sumConf [⟨1, 1, 1, 1, 1⟩],
              Script.sumWeighted (fun e => e.w) [⟨1, 1, 1, 1, 1⟩] / Script.sumConf [⟨1, 1, 1, 1, 1⟩],
              Script.sumWeighted (fun e => e.h) [⟨1, 1, 1, 1, 1⟩] / Script.sumConf [⟨1, 1, 1, 1, 1⟩],
              max 0 (Script.foldMaxConf (1:ℚ) [])⟩ :=
  ⟨by simp [Script.sumConf], smoothDetections_matches_claim ⟨1, 1, 1, 1, 1⟩ []
    (by simp [Script.sumConf])⟩

/-! ## Pipeline error handling and the confidence invariant -/

namespace Script

/-- Every detection built by the extraction loop strictly exceeds the
minimum confidence. -/
theorem extractDetections_confidence_gt (m : ℚ) (p : List (List ℚ))
    (d : Detection) (hd : d ∈ extractDetections m p) : m < d.confidence := by
  simp only [extractDetections, List.mem_filterMap, List.mem_range] at hd
  obtain ⟨i, _, heq⟩ := hd
  by_cases hc : m < (p.getD 4 []).getD i 0
  · rw [if_pos hc] at heq
    cases heq
    exact hc
  · rw [if_neg hc] at heq
    cases heq

/-- A successful inner-loop merge preserves a strict lower bound on all
cluster confidences, given the bound for the incoming detection. -/
theorem addDetection_preserves_bound (m t : ℚ) (d : Detection)
    (clusters l : List Detection)
    (hc : ∀ c ∈ clusters, m < c.confidence)
    (h : addDetection t d clusters = some l) :
    ∀ c ∈ l, m < c.confidence := by
  induction clusters generalizing l with
  | nil => cases h
  | cons c cs ih =>
    by_cases hm : iouExceeds t d c
    · rw [addDetection, if_pos hm] at h
      cases h
      intro e he
      rcases List.mem_cons.mp he with rfl | hmem
      · exact lt_of_lt_of_le (hc c (List.mem_cons_self c cs))
          (le_max_left c.confidence d.confidence)
      · exact hc e (List.mem_cons_of_mem c hmem)
    · rw [addDetection, if_neg hm] at h
      cases hrec : addDetection t d cs with
      | none => rw [hrec] at h; cases h
      | some l2 =>
        rw [hrec] at h
        cases h
        intro e he
        rcases List.mem_cons.mp he with rfl | hmem
        · exact hc e (List.mem_cons_self e cs)
        · exact ih l2 (fun c hc2 => hc c (List.mem_cons_of_mem _ hc2)) hrec e hmem

/-- One outer-loop iteration preserves the strict lower bound. -/
theorem clusterStep_preserves_bound (m t : ℚ) (d : Detection)
    (clusters : List Detection)
    (hc : ∀ c ∈ clusters, m < c.confidence) (hd : m < d.confidence) :
    ∀ c ∈ clusterStep t clusters d, m < c.confidence := by
  unfold clusterStep
  cases h : addDetection t d clusters with
  | none =>
    intro e he
    simp only [Option.getD_none] at he
    rcases List.mem_append.mp he with hmem | hmem
    · exact hc e hmem
    · rw [List.mem_singleton.mp hmem]
      exact hd
  | some l =>
    intro e he
    simp only [Option.getD_some] at he
    exact addDetection_preserves_bound m t d clusters l hc h e he

/-- All clusters produced from detections strictly above the bound stay
strictly above the bound. -/
theorem clusterDetections_preserves_bound (m t : ℚ) (detections : List Detection)
    (hd : ∀ d ∈ detections, m < d.confidence) :
    ∀ c ∈ clusterDetections t detections, m < c.confidence := by
  unfold clusterDetections
  suffices h : ∀ (dets : List Detection) (clusters : List Detection),
      (∀ c ∈ clusters, m < c.confidence) → (∀ d ∈ dets, m < d.confidence) →
      ∀ c ∈ dets.foldl (clusterStep t) clusters, m < c.confidence by
    exact h detections [] (by intro c hc; cases hc) hd
  intro dets
  induction dets with
  | nil => intro clusters hc _ c hmem; exact hc c hmem
  | cons d ds ih =>
    intro clusters hc hds c hmem
    rw [List.foldl_cons] at hmem
    exact ih (clusterStep t clusters d)
      (clusterStep_preserves_bound m t d clusters hc (hds d (List.mem_cons_self d ds)))
      (fun e he => hds e (List.mem_cons_of_mem d he)) c hmem

/-- The running best of the selector scan is always one of the scanned
clusters. -/
theorem pickBest_mem (b : Detection) (l : List Detection) :
    pickBest b l ∈ b :: l := by
  induction l generalizing b with
  | nil => exact List.mem_singleton.mpr rfl
  | cons d t ih =>
    rw [pickBest_cons]
    by_cases h : b.confidence < d.confidence
    · rw [if_pos h]
      rcases List.mem_cons.mp (ih d) with heq | hmem
      · rw [heq]; exact List.mem_cons_of_mem b (List.mem_cons_self d t)
      · exact List.mem_cons_of_mem b (List.mem_cons_of_mem d hmem)
    · rw [if_neg h]
      rcases List.mem_cons.mp (ih b) with heq | hmem
      · rw [heq]; exact List.mem_cons_self b (d :: t)
      · exact List.mem_cons_of_mem b (List.mem_cons_of_mem d hmem)

/-- A result of the best-cluster scan is a member of the scanned list. -/
theorem selectBest_mem (l : List Detection) (b : Detection)
    (h : selectBest l = some b) : b ∈ l := by
  cases l with
  | nil => cases h
  | cons c cs =>
    have : pickBest c cs = b := Option.some.inj h
    rw [← this]
    exact pickBest_mem c cs

end Script

/-- C9: the detection pipeline returns the no-detection sentinel, without
any possibility of failure, on every malformed input and on every empty
intermediate stage: a missing prediction array gives `null`; a prediction
array whose length is not 5 gives `null`; a prediction array from which no
detection survives the confidence filter gives `null`; clustering an empty
detection list gives the empty cluster list; and selecting from an empty
cluster list gives the `null` sentinel.  (All embedded functions are total,
which is the embedding of "does not throw"; note that the pipeline
short-circuits to `null` before selection whenever the detection list is
empty, so the selector's empty case is never exercised by the pipeline
itself.) -/
theorem processDetections_sentinel_on_bad_input :
    Script.processDetections none = none ∧
      (∀ p : List (List ℚ), p.length ≠ 5 → Script.processDetections (some p) = none) ∧
      (∀ p : List (List ℚ), Script.extractDetections Script.MIN_CONFIDENCE p = [] →
          Script.processDetections (some p) = none) ∧
      (∀ t : ℚ, Script.clusterDetections t [] = []) ∧
      Script.selectBest [] = none := by
  refine ⟨rfl, fun p hp => ?_, fun p hp => ?_, fun t => rfl, rfl⟩
  · show (if p.length ≠ 5 then none
      else if Script.extractDetections Script.MIN_CONFIDENCE p = [] then none
      else Script.selectBest (Script.clusterDetections Script.IOU_THRESHOLD
        (Script.extractDetections Script.MIN_CONFIDENCE p))) = none
    rw [if_pos hp]
  · show (if p.length ≠ 5 then none
      else if Script.extractDetections Script.MIN_CONFIDENCE p = [] then none
      else Script.selectBest (Script.clusterDetections Script.IOU_THRESHOLD
        (Script.extractDetections Script.MIN_CONFIDENCE p))) = none
    by_cases hlen : p.length ≠ 5
    · rw [if_pos hlen]
    · rw [if_neg hlen, hp, if_pos rfl]

/-- Witness for C9: the length-0 prediction array `[]` (malformed) and the
length-5 prediction array of empty rows (well-formed, but nothing survives
the filter) both give the `null` sentinel, and clustering the empty
detection list gives the empty cluster list. -/
theorem processDetections_sentinel_witness :
    Script.processDetections (some []) = none ∧
      Script.processDetections (some [[], [], [], [], []]) = none ∧
      Script.clusterDetections (1/5) [] = [] :=
  ⟨processDetections_sentinel_on_bad_input.2.1 [] (by norm_num),
   processDetections_sentinel_on_bad_input.2.2.1 [[], [], [], [], []] rfl,
   processDetections_sentinel_on_bad_input.2.2.2.1 (1/5)⟩

/-- C10: whenever `processDetections` returns a detection, that detection's
confidence strictly exceeds the configured minimum-confidence threshold:
every extracted detection strictly exceeds it, clustering preserves the
strict bound (a new cluster copies a detection; a merge takes the max of two
bounded confidences), and the selector returns one of the clusters. -/
theorem processDetections_confidence_above_threshold (p : List (List ℚ))
    (d : Script.Detection) (h : Script.processDetections (some p) = some d) :
    Script.MIN_CONFIDENCE < d.confidence := by
  have h2 : (if p.length ≠ 5 then none
      else if Script.extractDetections Script.MIN_CONFIDENCE p = [] then none
      else Script.selectBest (Script.clusterDetections Script.IOU_THRESHOLD
        (Script.extractDetections Script.MIN_CONFIDENCE p))) = some d := h
  clear h
  rename' h2 => h
  by_cases hlen : p.length ≠ 5
  · rw [if_pos hlen] at h; cases h
  · rw [if_neg hlen] at h
    by_cases hdet : Script.extractDetections Script.MIN_CONFIDENCE p = []
    · rw [if_pos hdet] at h; cases h
    · rw [if_neg hdet] at h
      have hmem := Script.selectBest_mem _ _ h
      exact Script.clusterDetections_preserves_bound Script.MIN_CONFIDENCE
        Script.IOU_THRESHOLD (Script.extractDetections Script.MIN_CONFIDENCE p)
        (Script.extractDetections_confidence_gt Script.MIN_CONFIDENCE p) d hmem

namespace Script

/-- Row-wise unfolding of the extraction loop on a five-row prediction
array. -/
theorem extractDetections_five_rows (m : ℚ) (xs ys ws hs confs : List ℚ) :
    extractDetections m [xs, ys, ws, hs, confs] =
      (List.range xs.length).filterMap (fun i =>
        if m < confs.getD i 0 then
          some ⟨xs.getD i 0 / 640, ys.getD i 0 / 640, ws.getD i 0 / 640,
                hs.getD i 0 / 640, confs.getD i 0⟩
        else none) := rfl

/-- Extraction from a single-candidate prediction array whose confidence
passes the threshold. -/
theorem extractDetections_single (m x y w h c : ℚ) (hm : m < c) :
    extractDetections m [[x], [y], [w], [h], [c]] =
      [⟨x / 640, y / 640, w / 640, h / 640, c⟩] := by
  rw [extractDetections_five_rows]
  rw [show ([x] : List ℚ).length = 1 from rfl, show List.range 1 = [0] from rfl]
  simp only [List.filterMap_cons, List.filterMap_nil]
  rw [show ([c] : List ℚ).getD 0 0 = c from rfl, show ([x] : List ℚ).getD 0 0 = x from rfl,
    show ([y] : List ℚ).getD 0 0 = y from rfl, show ([w] : List ℚ).getD 0 0 = w from rfl,
    show ([h] : List ℚ).getD 0 0 = h from rfl, if_pos hm]

end Script

/-- Witness for C10: on the single-candidate prediction array
`[[320], [320], [64], [64], [1]]` the pipeline returns the detection
`{x: 0.5, y: 0.5, w: 0.1, h: 0.1, conf: 1}`, whose confidence strictly
exceeds `MIN_CONFIDENCE = 0.001`. -/
theorem processDetections_confidence_witness :
    Script.processDetections (some [[320], [320], [64], [64], [1]]) =
        some ⟨320/640, 320/640, 64/640, 64/640, 1⟩ ∧
      Script.MIN_CONFIDENCE <
        Script.Detection.confidence ⟨320/640, 320/640, 64/640, 64/640, 1⟩ := by
  have hext : Script.extractDetections Script.MIN_CONFIDENCE [[320], [320], [64], [64], [1]] =
      [⟨320/640, 320/640, 64/640, 64/640, 1⟩] :=
    Script.extractDetections_single Script.MIN_CONFIDENCE 320 320 64 64 1
      (by norm_num [Script.MIN_CONFIDENCE])
  have hrun : Script.processDetections (some [[320], [320], [64], [64], [1]]) =
      some ⟨320/640, 320/640, 64/640, 64/640, 1⟩ := by
    show (if ([[320], [320], [64], [64], [1]] : List (List ℚ)).length ≠ 5 then none
      else if Script.extractDetections Script.MIN_CONFIDENCE
          [[320], [320], [64], [64], [1]] = [] then none
      else Script.selectBest (Script.clusterDetections Script.IOU_THRESHOLD
        (Script.extractDetections Script.MIN_CONFIDENCE
          [[320], [320], [64], [64], [1]]))) =
      some ⟨320/640, 320/640, 64/640, 64/640, 1⟩
    rw [show ([[320], [320], [64], [64], [1]] : List (List ℚ)).length = 5 from rfl]
    rw [if_neg (by norm_num), hext,
      if_neg (List.cons_ne_nil _ _)]
    rfl
  exact ⟨hrun, processDetections_confidence_above_threshold _ _ hrun⟩

/-! ## Frame scheduler -/

/-- C4: starting from frame counter `0`, across 10 consecutive active ticks
with `PROCESS_EVERY_N_FRAMES = 3` the inference pipeline is invoked on
exactly the ticks whose frame counter is `0, 3, 6, 9` (4 invocations),
whatever the per-tick prediction inputs and initial cache; and on every tick
whose frame counter is not a multiple of 3 the scheduler does not invoke
inference but hands the cached last detection to the renderer, leaving the
cache and rendering exactly the cached value. -/
theorem scheduler_invokes_every_third_tick
    (p0 p1 p2 p3 p4 p5 p6 p7 p8 p9 : Option (List (List ℚ)))
    (cache : Option Part002.Detection) :
    ((Part002.tickTrace [p0, p1, p2, p3, p4, p5, p6, p7, p8, p9]
        ⟨0, cache⟩).map Prod.fst =
      [true, false, false, true, false, false, true, false, false, true]) ∧
      (∀ (s : Part002.SchedState) (p : Option (List (List ℚ))),
          s.frameCount % Part002.PROCESS_EVERY_N_FRAMES ≠ 0 →
          Part002.tick p s = (⟨s.frameCount + 1, s.lastProcessed⟩, s.lastProcessed, false)) := by
  constructor
  · simp only [Part002.tickTrace, Part002.tick, Part002.PROCESS_EVERY_N_FRAMES]
    norm_num
  · intro s p hs
    unfold Part002.tick
    rw [if_neg hs]

/-- Witness for C4 at the non-sampled frame counter `1` with an empty cache:
the tick reuses the (empty) cache and does not invoke inference. -/
theorem scheduler_invokes_every_third_tick_witness :
    (1 : ℕ) % Part002.PROCESS_EVERY_N_FRAMES ≠ 0 ∧
      Part002.tick none ⟨1, none⟩ = (⟨2, none⟩, none, false) :=
  ⟨by decide,
   (scheduler_invokes_every_third_tick none none none none none none none none none none
      none).2 ⟨1, none⟩ none (by decide)⟩

/-- C5 counterexample: on a sampled tick (frame counter `0`) whose prediction
array is malformed (the empty array, length `0 ≠ 5`), `processDetections`
returns `null` through its early-exit branch (`part_002` lines 154-156),
which does not touch `lastProcessedDetections`: the cache still holds the
stale detection afterwards instead of the `none` sentinel the claim requires,
and the following non-sampled tick hands that stale detection to the
renderer. -/
theorem scheduler_malformed_keeps_stale_cache :
    (Part002.tick (some []) ⟨0, some ⟨1/2, 1/2, 1/5, 1/5, 9/10, 0⟩⟩).1.lastProcessed =
        some ⟨1/2, 1/2, 1/5, 1/5, 9/10, 0⟩ ∧
      (Part002.tick none ⟨1, some ⟨1/2, 1/2, 1/5, 1/5, 9/10, 0⟩⟩).2.1 =
        some ⟨1/2, 1/2, 1/5, 1/5, 9/10, 0⟩ ∧
      some (⟨1/2, 1/2, 1/5, 1/5, 9/10, 0⟩ : Part002.Detection) ≠ none :=
  ⟨rfl, rfl, Option.some_ne_none _⟩

/-- C5 (amended): on a sampled tick whose prediction array is well-formed
(length 5) but from which no detection survives the confidence filter, the
scheduler's cached detection is cleared to the no-detection sentinel and
nothing is handed to the renderer; a malformed prediction array, by contrast,
leaves the cache untouched (see the counterexample). -/
theorem scheduler_clears_cache_on_empty (s : Part002.SchedState) (p : List (List ℚ))
    (hs : s.frameCount % Part002.PROCESS_EVERY_N_FRAMES = 0)
    (hlen : p.length = 5)
    (hempty : Part002.extractDetections p = []) :
    (Part002.tick (some p) s).1.lastProcessed = none ∧
      (Part002.tick (some p) s).2.1 = none := by
  have hproc : Part002.processDetections p = .noDetections := by
    unfold Part002.processDetections
    rw [if_neg (by rw [hlen]; norm_num), hempty, if_pos rfl]
  have hdb : Part002.detectBall s.lastProcessed (some p) = (none, none) := by
    show (match Part002.processDetections p with
      | .malformed => (none, s.lastProcessed)
      | .noDetections => (none, none)
      | .found d => (some d, some d)) = (none, none)
    rw [hproc]
  have ht : Part002.tick (some p) s = (⟨s.frameCount + 1, none⟩, none, true) := by
    unfold Part002.tick
    rw [if_pos hs, hdb]
  rw [ht]
  exact ⟨rfl, rfl⟩

/-- Witness for C5 (amended) at the sampled frame counter `0`, with a stale
cached detection and the well-formed prediction array of five empty rows:
the cache is cleared. -/
theorem scheduler_clears_cache_on_empty_witness :
    (0 : ℕ) % Part002.PROCESS_EVERY_N_FRAMES = 0 ∧
      ([[], [], [], [], []] : List (List ℚ)).length = 5 ∧
      Part002.extractDetections [[], [], [], [], []] = [] ∧
      (Part002.tick (some [[], [], [], [], []])
          ⟨0, some ⟨1/2, 1/2, 1/5, 1/5, 9/10, 0⟩⟩).1.lastProcessed = none :=
  ⟨by decide, rfl, rfl,
   (scheduler_clears_cache_on_empty ⟨0, some ⟨1/2, 1/2, 1/5, 1/5, 9/10, 0⟩⟩
      [[], [], [], [], []] (by decide) rfl rfl).1⟩
